import Mathlib

/-!
Verification of the `_wrap_::InstanceTable` registry from
`Utilities/Cable/WrapTclFacility/wrapInstanceTable.cxx`.

The registry keeps a forward map from symbolic names to registered
instances (object address plus cv-qualified type), a reverse map from
object address to name, and a table of per-type delete functions.  We
embed `std::map` as an association list with unique keys (insertion
replaces, erasure removes the entry with the given key), object
addresses and type identities as natural numbers, and names as strings.

External effects (calling a registered delete function, asking Tcl to
delete the command bound to a name) are recorded as an event trace.
C++ exceptions are modelled by an `Option WrapException` component of
each mutating operation's result: when an exception is thrown, the
returned state is the state at the throw point (C++ unwinding performs
no rollback), and statements after the throw do not run.
-/

set_option autoImplicit false

section MapModel

variable {K V : Type} [DecidableEq K]

/-- `std::map` lookup: value stored under key `k`, if any. -/
def mfind (k : K) : List (K × V) → Option V
  | [] => none
  | (k', v) :: rest => if k' = k then some v else mfind k rest

/-- `std::map` assignment `m[k] = v`: replace the entry for `k`, or append one. -/
def minsert (k : K) (v : V) : List (K × V) → List (K × V)
  | [] => [(k, v)]
  | (k', v') :: rest => if k' = k then (k, v) :: rest else (k', v') :: minsert k v rest

/-- `std::map::erase(k)`: drop the entry for `k`, if present. -/
def merase (k : K) : List (K × V) → List (K × V)
  | [] => []
  | (k', v') :: rest => if k' = k then rest else (k', v') :: merase k rest

/-- `std::map::count(k)`: `1` when the key is present, else `0`. -/
def mcount (k : K) (m : List (K × V)) : Nat :=
  if (mfind k m).isSome then 1 else 0

/-- The keys of an association list. -/
def mkeys (m : List (K × V)) : List K := m.map Prod.fst

theorem mfind_minsert_self (k : K) (v : V) (m : List (K × V)) :
    mfind k (minsert k v m) = some v := by
  induction m with
  | nil => simp [minsert, mfind]
  | cons hd tl ih =>
    by_cases h : hd.1 = k <;> simp [minsert, mfind, h, ih]

theorem mfind_minsert_ne (k k' : K) (v : V) (m : List (K × V)) (h : k ≠ k') :
    mfind k' (minsert k v m) = mfind k' m := by
  induction m with
  | nil => simp [minsert, mfind, h]
  | cons hd tl ih =>
    by_cases hk : hd.1 = k
    · simp [minsert, mfind, hk, h]
    · simp only [minsert, hk, if_false, mfind]
      by_cases hk' : hd.1 = k' <;> simp [hk', ih]

theorem mfind_merase_ne (k k' : K) (m : List (K × V)) (h : k ≠ k') :
    mfind k' (merase k m) = mfind k' m := by
  induction m with
  | nil => rfl
  | cons hd tl ih =>
    by_cases hk : hd.1 = k
    · simp only [merase, hk, if_true, mfind]
      simp [h]
    · simp only [merase, hk, if_false, mfind]
      by_cases hk' : hd.1 = k' <;> simp [hk', ih]

theorem mfind_eq_none_of_not_mem (k : K) (m : List (K × V))
    (h : k ∉ mkeys m) : mfind k m = none := by
  induction m with
  | nil => rfl
  | cons hd tl ih =>
    simp only [mkeys, List.map_cons, List.mem_cons, not_or] at h
    have h1 : hd.1 ≠ k := fun he => h.1 he.symm
    simp only [mfind, h1, if_false]
    exact ih h.2

theorem mfind_merase_self (k : K) (m : List (K × V)) (hnd : (mkeys m).Nodup) :
    mfind k (merase k m) = none := by
  induction m with
  | nil => rfl
  | cons hd tl ih =>
    simp only [mkeys, List.map_cons, List.nodup_cons] at hnd
    by_cases hk : hd.1 = k
    · simp only [merase, hk, if_true]
      exact mfind_eq_none_of_not_mem k tl (hk ▸ hnd.1)
    · simp only [merase, hk, if_false, mfind, hk, if_false]
      exact ih hnd.2

theorem mkeys_merase_sublist (k : K) (m : List (K × V)) :
    List.Sublist (mkeys (merase k m)) (mkeys m) := by
  induction m with
  | nil => exact List.Sublist.refl _
  | cons hd tl ih =>
    by_cases hk : hd.1 = k
    · simp only [merase, hk, if_true, mkeys, List.map_cons]
      exact List.sublist_cons_of_sublist _ (List.Sublist.refl _)
    · simp only [merase, hk, if_false, mkeys, List.map_cons]
      exact List.Sublist.cons₂ _ ih

theorem nodup_mkeys_merase (k : K) (m : List (K × V)) (h : (mkeys m).Nodup) :
    (mkeys (merase k m)).Nodup :=
  (mkeys_merase_sublist k m).nodup h

theorem mkeys_minsert (k : K) (v : V) (m : List (K × V)) :
    mkeys (minsert k v m) = if k ∈ mkeys m then mkeys m else mkeys m ++ [k] := by
  induction m with
  | nil => simp [minsert, mkeys]
  | cons hd tl ih =>
    by_cases hk : hd.1 = k
    · subst hk
      simp [minsert, mkeys, List.mem_cons]
    · have h1 : k ≠ hd.1 := fun he => hk he.symm
      simp only [minsert, hk, if_false, mkeys, List.map_cons, List.mem_cons, h1, false_or]
      by_cases hm : k ∈ List.map Prod.fst tl
      · simp only [hm, if_true]
        simp only [mkeys] at ih
        simp [ih, hm]
      · simp only [hm, if_false]
        simp only [mkeys] at ih
        simp [ih, hm]

theorem nodup_mkeys_minsert (k : K) (v : V) (m : List (K × V))
    (h : (mkeys m).Nodup) : (mkeys (minsert k v m)).Nodup := by
  rw [mkeys_minsert]
  by_cases hm : k ∈ mkeys m
  · simp [hm, h]
  · simp only [hm, if_false]
    refine List.Nodup.append h (List.nodup_singleton k) ?_
    intro a ha hb
    simp only [List.mem_singleton] at hb
    subst hb
    exact hm ha

theorem mfind_of_mem_nodup (k : K) (v : V) (m : List (K × V))
    (hnd : (mkeys m).Nodup) (hm : (k, v) ∈ m) : mfind k m = some v := by
  induction m with
  | nil => cases hm
  | cons hd tl ih =>
    simp only [mkeys, List.map_cons, List.nodup_cons] at hnd
    rcases List.mem_cons.mp hm with hm | hm
    · rw [← hm]
      simp [mfind]
    · have h1 : hd.1 ≠ k := by
        intro he
        have hx : k ∈ List.map Prod.fst tl := List.mem_map.mpr ⟨(k, v), hm, rfl⟩
        rw [← he] at hx
        exact hnd.1 hx
      simp only [mfind, h1, if_false]
      exact ih hnd.2 hm

theorem mem_of_mfind (k : K) (v : V) (m : List (K × V))
    (h : mfind k m = some v) : (k, v) ∈ m := by
  induction m with
  | nil => simp [mfind] at h
  | cons hd tl ih =>
    by_cases hk : hd.1 = k
    · simp only [mfind, hk, if_true, Option.some.injEq] at h
      subst h
      have h2 : hd = (k, hd.2) := by
        rw [← hk]
      rw [h2]
      exact List.mem_cons_self _ _
    · simp only [mfind, hk, if_false] at h
      exact List.mem_cons_of_mem _ (ih h)

end MapModel

/-- A `_wrap_::Reference`: the object address together with its
cv-qualified type, as stored in the instance map. -/
structure Reference where
  object : Nat
  type : Nat
deriving DecidableEq, Repr, Inhabited

/-- The two exception kinds thrown by the instance table
(`_wrap_UndefinedInstanceNameException`, `_wrap_UndefinedObjectTypeException`). -/
inductive WrapException where
  | undefinedInstanceName (name : String)
  | undefinedObjectType (type : Nat)
deriving DecidableEq, Repr

/-- Externally observable effects of the registry: invoking a registered
delete function on an object address, and `Tcl_DeleteCommand` on a name. -/
inductive Event where
  | deleterCall (func : Nat) (object : Nat)
  | removeCommand (name : String)
deriving DecidableEq, Repr

/-- State of a `_wrap_::InstanceTable`: the instance map (name to
reference), the address-to-name map, the delete-function map (type to an
identifier of the registered function), and the temporary-name counter. -/
structure InstanceTable where
  m_InstanceMap : List (String × Reference)
  m_AddressToNameMap : List (Nat × String)
  m_DeleteFunctionMap : List (Nat × Nat)
  m_TempNameNumber : Nat
deriving DecidableEq, Repr

/-- The state built by the constructor: empty maps, counter zero. -/
def initialTable : InstanceTable :=
  { m_InstanceMap := []
    m_AddressToNameMap := []
    m_DeleteFunctionMap := []
    m_TempNameNumber := 0 }

/-- `InstanceTable::Exists`: whether an object with the given name exists. -/
def InstanceTable.Exists (s : InstanceTable) (name : String) : Bool :=
  mcount name s.m_InstanceMap > 0

/-- `InstanceTable::SetDeleteFunction`: record the delete function for a type. -/
def InstanceTable.SetDeleteFunction (s : InstanceTable) (type : Nat) (func : Nat) :
    InstanceTable :=
  { s with m_DeleteFunctionMap := minsert type func s.m_DeleteFunctionMap }

/-- `InstanceTable::GetEntry`: the `Reference` holding the object with the
given name; throws `_wrap_UndefinedInstanceNameException` if absent. -/
def InstanceTable.GetEntry (s : InstanceTable) (name : String) :
    Except WrapException Reference :=
  if s.Exists name then
    .ok ((mfind name s.m_InstanceMap).getD default)
  else
    .error (.undefinedInstanceName name)

/-- `InstanceTable::GetObject`: pointer to the object with the given name. -/
def InstanceTable.GetObject (s : InstanceTable) (name : String) :
    Except WrapException Nat :=
  if s.Exists name then
    .ok ((mfind name s.m_InstanceMap).getD default).object
  else
    .error (.undefinedInstanceName name)

/-- `InstanceTable::GetType`: the type of the object with the given name. -/
def InstanceTable.GetType (s : InstanceTable) (name : String) :
    Except WrapException Nat :=
  if s.Exists name then
    .ok ((mfind name s.m_InstanceMap).getD default).type
  else
    .error (.undefinedInstanceName name)

/-- `InstanceTable::DeleteObject`: after `CheckExists`, look up the
object's type and address; throw `_wrap_UndefinedObjectTypeException` if
no delete function is registered for the type; otherwise erase the
address from the address-to-name map, call the registered delete
function, erase the instance-map entry, and `Tcl_DeleteCommand` the
name.  Result: state after the call, the event trace, and the exception
thrown (if any); on exception the returned state is the state at the
throw point. -/
def InstanceTable.DeleteObject (s : InstanceTable) (name : String) :
    InstanceTable × List Event × Option WrapException :=
  if s.Exists name then
    let ref := (mfind name s.m_InstanceMap).getD default
    match mfind ref.type s.m_DeleteFunctionMap with
    | none => (s, [], some (.undefinedObjectType ref.type))
    | some func =>
      let s1 := { s with m_AddressToNameMap := merase ref.object s.m_AddressToNameMap }
      let s2 := { s1 with m_InstanceMap := merase name s1.m_InstanceMap }
      (s2, [.deleterCall func ref.object, .removeCommand name], none)
  else
    (s, [], some (.undefinedInstanceName name))

/-- The intermediate state of `InstanceTable::DeleteObject` at the moment
the registered delete function is invoked: the object's address has been
erased from the address-to-name map, the instance-map entry is still
present. -/
def InstanceTable.DeleteObjectMid (s : InstanceTable) (name : String) : InstanceTable :=
  let ref := (mfind name s.m_InstanceMap).getD default
  { s with m_AddressToNameMap := merase ref.object s.m_AddressToNameMap }

/-- `InstanceTable::SetObject`: if the name already exists, delete the
old object first (an exception thrown there propagates, leaving the maps
as the failed deletion left them); then install the new instance-map and
address-to-name entries. -/
def InstanceTable.SetObject (s : InstanceTable) (name : String) (object : Nat)
    (type : Nat) : InstanceTable × List Event × Option WrapException :=
  let d := if s.Exists name then s.DeleteObject name else (s, [], none)
  match d.2.2 with
  | some e => (d.1, d.2.1, some e)
  | none =>
    ({ d.1 with
        m_InstanceMap := minsert name ⟨object, type⟩ d.1.m_InstanceMap
        m_AddressToNameMap := minsert object name d.1.m_AddressToNameMap },
     d.2.1, none)

/-- One hexadecimal digit list of `n` rendered as `sprintf` `%x` does:
lowercase digits, most significant first, no leading zeros, `"0"` for 0.
`fuel` bounds the recursion; any `fuel` with `n < 16 ^ fuel` is enough. -/
def hexList (fuel : Nat) (n : Nat) : List Char :=
  match fuel with
  | 0 => []
  | fuel + 1 =>
    if n / 16 = 0 then [Nat.digitChar n]
    else hexList fuel (n / 16) ++ [Nat.digitChar (n % 16)]

/-- `sprintf` with format `%x` applied to `n`. -/
def toHexString (n : Nat) : String := String.mk (hexList (n + 1) n)

/-- `InstanceTable::CreateTemporary`: mint the name
`"__temp" ++ %x of the counter`, post-increment the counter, and
`SetObject` under that name.  The minted name is returned alongside the
state, trace and exception. -/
def InstanceTable.CreateTemporary (s : InstanceTable) (object : Nat) (type : Nat) :
    InstanceTable × String × List Event × Option WrapException :=
  let tempName := "__temp" ++ toHexString s.m_TempNameNumber
  let s' := { s with m_TempNameNumber := s.m_TempNameNumber + 1 }
  let r := s'.SetObject tempName object type
  (r.1, tempName, r.2.1, r.2.2)

/-- `InstanceTable::DeleteIfTemporary`: `CheckExists`, then delete the
object only when the first six characters of the name are `"__temp"`. -/
def InstanceTable.DeleteIfTemporary (s : InstanceTable) (name : String) :
    InstanceTable × List Event × Option WrapException :=
  if s.Exists name then
    if name.take 6 = "__temp" then s.DeleteObject name
    else (s, [], none)
  else
    (s, [], some (.undefinedInstanceName name))

/-- `InstanceTable::DeleteCallBack`: when an instance deletes itself,
look up its name through the address-to-name map and run `DeleteObject`
on it; do nothing when the address is not in the map. -/
def InstanceTable.DeleteCallBack (s : InstanceTable) (object : Nat) :
    InstanceTable × List Event × Option WrapException :=
  if mcount object s.m_AddressToNameMap > 0 then
    let name := (mfind object s.m_AddressToNameMap).getD ""
    s.DeleteObject name
  else
    (s, [], none)

/-- Numeric value of one lowercase hexadecimal digit character. -/
def hexDigitVal (c : Char) : Nat :=
  if c.toNat ≥ 97 then c.toNat - 87 else c.toNat - 48

/-- Value of a most-significant-first hexadecimal digit string. -/
def hexVal (l : List Char) : Nat :=
  l.foldl (fun acc c => 16 * acc + hexDigitVal c) 0

theorem hexDigitVal_digitChar (d : Nat) (h : d < 16) :
    hexDigitVal (Nat.digitChar d) = d := by
  interval_cases d <;> rfl

theorem hexVal_append_singleton (l : List Char) (c : Char) :
    hexVal (l ++ [c]) = 16 * hexVal l + hexDigitVal c := by
  simp [hexVal, List.foldl_append]

theorem hexVal_hexList (fuel : Nat) : ∀ n : Nat, n < 16 ^ fuel →
    hexVal (hexList fuel n) = n := by
  induction fuel with
  | zero =>
    intro n h
    have hn : n = 0 := by simpa using h
    subst hn
    rfl
  | succ fuel ih =>
    intro n h
    by_cases h0 : n / 16 = 0
    · have hn : n < 16 := by omega
      simp only [hexList, h0, if_true]
      show hexVal [Nat.digitChar n] = n
      simp [hexVal, hexDigitVal_digitChar n hn]
    · simp only [hexList, h0, if_false]
      have hdiv : n / 16 < 16 ^ fuel := by
        rw [Nat.div_lt_iff_lt_mul (by norm_num)]
        calc n < 16 ^ (fuel + 1) := h
        _ = 16 ^ fuel * 16 := by rw [Nat.pow_succ]
      rw [hexVal_append_singleton, ih (n / 16) hdiv,
        hexDigitVal_digitChar _ (Nat.mod_lt n (by norm_num))]
      omega

theorem toHexString_injective (a b : Nat) (h : toHexString a = toHexString b) :
    a = b := by
  have ha : a < 16 ^ (a + 1) :=
    lt_of_lt_of_le (Nat.lt_pow_self (by norm_num) a)
      (Nat.pow_le_pow_right (by norm_num) (Nat.le_succ a))
  have hb : b < 16 ^ (b + 1) :=
    lt_of_lt_of_le (Nat.lt_pow_self (by norm_num) b)
      (Nat.pow_le_pow_right (by norm_num) (Nat.le_succ b))
  have h' : hexList (a + 1) a = hexList (b + 1) b := congrArg String.data h
  have h2 := congrArg hexVal h'
  rw [hexVal_hexList _ _ ha, hexVal_hexList _ _ hb] at h2
  exact h2

theorem tempName_injective (a b : Nat)
    (h : "__temp" ++ toHexString a = "__temp" ++ toHexString b) : a = b := by
  have h' := congrArg String.data h
  rw [String.data_append, String.data_append] at h'
  exact toHexString_injective a b (String.ext (List.append_cancel_left h'))

theorem hexList_length_le (fuel : Nat) : ∀ n k : Nat, 0 < k → n < 16 ^ k →
    (hexList fuel n).length ≤ k := by
  induction fuel with
  | zero =>
    intro n k hk _
    simp only [hexList, List.length_nil]
    omega
  | succ fuel ih =>
    intro n k hk h
    by_cases h0 : n / 16 = 0
    · simp [hexList, h0]
      omega
    · simp only [hexList, h0, if_false, List.length_append, List.length_singleton]
      have h16 : 16 ≤ n := by omega
      have hk2 : 2 ≤ k := by
        by_contra hc
        have hk1 : k = 1 := by omega
        subst hk1
        rw [pow_one] at h
        omega
      have hdiv : n / 16 < 16 ^ (k - 1) := by
        rw [Nat.div_lt_iff_lt_mul (by norm_num)]
        have he : (16 : Nat) ^ (k - 1) * 16 = 16 ^ k := by
          rw [← Nat.pow_succ]
          congr 1
          omega
        rw [he]
        exact h
      have := ih (n / 16) (k - 1) (by omega) hdiv
      omega

theorem exists_eq_isSome (s : InstanceTable) (name : String) :
    s.Exists name = (mfind name s.m_InstanceMap).isSome := by
  cases hm : mfind name s.m_InstanceMap <;>
    simp [InstanceTable.Exists, mcount, hm]

theorem exists_eq_true_of_mfind (s : InstanceTable) (name : String)
    (r : Reference) (h : mfind name s.m_InstanceMap = some r) :
    s.Exists name = true := by
  rw [exists_eq_isSome, h]
  rfl

theorem mfind_isSome_of_exists (s : InstanceTable) (name : String)
    (h : s.Exists name = true) : (mfind name s.m_InstanceMap).isSome := by
  rw [← exists_eq_isSome, h]

theorem DeleteObject_of_not_exists (s : InstanceTable) (name : String)
    (h : s.Exists name = false) :
    s.DeleteObject name = (s, [], some (.undefinedInstanceName name)) := by
  unfold InstanceTable.DeleteObject
  rw [h]
  rfl

theorem DeleteObject_of_no_deleter (s : InstanceTable) (name : String)
    (ref : Reference) (href : mfind name s.m_InstanceMap = some ref)
    (hdel : mfind ref.type s.m_DeleteFunctionMap = none) :
    s.DeleteObject name = (s, [], some (.undefinedObjectType ref.type)) := by
  unfold InstanceTable.DeleteObject
  rw [exists_eq_true_of_mfind s name ref href, href]
  simp only [Option.getD_some, if_true, hdel]

theorem DeleteObject_of_deleter (s : InstanceTable) (name : String)
    (ref : Reference) (func : Nat) (href : mfind name s.m_InstanceMap = some ref)
    (hdel : mfind ref.type s.m_DeleteFunctionMap = some func) :
    s.DeleteObject name =
      ({ s with
          m_AddressToNameMap := merase ref.object s.m_AddressToNameMap
          m_InstanceMap := merase name s.m_InstanceMap },
       [.deleterCall func ref.object, .removeCommand name], none) := by
  unfold InstanceTable.DeleteObject
  rw [exists_eq_true_of_mfind s name ref href, href]
  simp only [Option.getD_some, if_true, hdel]

theorem SetObject_of_not_exists (s : InstanceTable) (name : String)
    (object type : Nat) (h : s.Exists name = false) :
    s.SetObject name object type =
      ({ s with
          m_InstanceMap := minsert name ⟨object, type⟩ s.m_InstanceMap
          m_AddressToNameMap := minsert object name s.m_AddressToNameMap },
       [], none) := by
  unfold InstanceTable.SetObject
  rw [h]
  rfl

theorem SetObject_of_no_deleter (s : InstanceTable) (name : String)
    (object type : Nat) (ref : Reference)
    (href : mfind name s.m_InstanceMap = some ref)
    (hdel : mfind ref.type s.m_DeleteFunctionMap = none) :
    s.SetObject name object type = (s, [], some (.undefinedObjectType ref.type)) := by
  unfold InstanceTable.SetObject
  rw [exists_eq_true_of_mfind s name ref href,
    DeleteObject_of_no_deleter s name ref href hdel]
  rfl

theorem SetObject_of_deleter (s : InstanceTable) (name : String)
    (object type : Nat) (ref : Reference) (func : Nat)
    (href : mfind name s.m_InstanceMap = some ref)
    (hdel : mfind ref.type s.m_DeleteFunctionMap = some func) :
    s.SetObject name object type =
      ({ s with
          m_InstanceMap := minsert name ⟨object, type⟩ (merase name s.m_InstanceMap)
          m_AddressToNameMap :=
            minsert object name (merase ref.object s.m_AddressToNameMap) },
       [.deleterCall func ref.object, .removeCommand name], none) := by
  unfold InstanceTable.SetObject
  rw [exists_eq_true_of_mfind s name ref href,
    DeleteObject_of_deleter s name ref func href hdel]
  rfl

/-- Bookkeeping invariant: both maps have unique keys, and every
address-to-name entry is backed by the instance-map entry for that name
holding exactly that address. -/
def TableInv (s : InstanceTable) : Prop :=
  (mkeys s.m_InstanceMap).Nodup ∧
  (mkeys s.m_AddressToNameMap).Nodup ∧
  ∀ o n, mfind o s.m_AddressToNameMap = some n →
    ∃ r : Reference, mfind n s.m_InstanceMap = some r ∧ r.object = o

theorem TableInv_deleteObject (s : InstanceTable) (name : String) (h : TableInv s) :
    TableInv (s.DeleteObject name).1 := by
  obtain ⟨h1, h2, h3⟩ := h
  cases hex : s.Exists name with
  | false =>
    rw [DeleteObject_of_not_exists s name hex]
    exact ⟨h1, h2, h3⟩
  | true =>
    obtain ⟨ref, href⟩ := Option.isSome_iff_exists.mp (mfind_isSome_of_exists s name hex)
    cases hdel : mfind ref.type s.m_DeleteFunctionMap with
    | none =>
      rw [DeleteObject_of_no_deleter s name ref href hdel]
      exact ⟨h1, h2, h3⟩
    | some func =>
      rw [DeleteObject_of_deleter s name ref func href hdel]
      refine ⟨nodup_mkeys_merase _ _ h1, nodup_mkeys_merase _ _ h2, ?_⟩
      intro o n hfind
      by_cases ho : o = ref.object
      · subst ho
        rw [mfind_merase_self _ _ h2] at hfind
        cases hfind
      · rw [mfind_merase_ne _ _ _ (fun he => ho he.symm)] at hfind
        obtain ⟨r, hr, hro⟩ := h3 o n hfind
        have hn : n ≠ name := by
          intro he
          subst he
          rw [href] at hr
          cases hr
          exact ho hro.symm
        exact ⟨r, by rw [mfind_merase_ne _ _ _ (fun he => hn he.symm)]; exact hr, hro⟩

theorem TableInv_setObject (s : InstanceTable) (name : String) (object type : Nat)
    (h : TableInv s) : TableInv (s.SetObject name object type).1 := by
  obtain ⟨h1, h2, h3⟩ := h
  cases hex : s.Exists name with
  | false =>
    rw [SetObject_of_not_exists s name object type hex]
    refine ⟨nodup_mkeys_minsert _ _ _ h1, nodup_mkeys_minsert _ _ _ h2, ?_⟩
    intro o n hfind
    by_cases ho : o = object
    · subst ho
      rw [mfind_minsert_self] at hfind
      cases hfind
      exact ⟨⟨o, type⟩, mfind_minsert_self _ _ _, rfl⟩
    · rw [mfind_minsert_ne _ _ _ _ (fun he => ho he.symm)] at hfind
      obtain ⟨r, hr, hro⟩ := h3 o n hfind
      have hn : n ≠ name := by
        intro he
        subst he
        rw [exists_eq_isSome, hr] at hex
        cases hex
      exact ⟨r, by rw [mfind_minsert_ne _ _ _ _ (fun he => hn he.symm)]; exact hr, hro⟩
  | true =>
    obtain ⟨ref, href⟩ := Option.isSome_iff_exists.mp (mfind_isSome_of_exists s name hex)
    cases hdel : mfind ref.type s.m_DeleteFunctionMap with
    | none =>
      rw [SetObject_of_no_deleter s name object type ref href hdel]
      exact ⟨h1, h2, h3⟩
    | some func =>
      rw [SetObject_of_deleter s name object type ref func href hdel]
      refine ⟨nodup_mkeys_minsert _ _ _ (nodup_mkeys_merase _ _ h1),
        nodup_mkeys_minsert _ _ _ (nodup_mkeys_merase _ _ h2), ?_⟩
      intro o n hfind
      by_cases ho : o = object
      · subst ho
        rw [mfind_minsert_self] at hfind
        cases hfind
        exact ⟨⟨o, type⟩, mfind_minsert_self _ _ _, rfl⟩
      · rw [mfind_minsert_ne _ _ _ _ (fun he => ho he.symm)] at hfind
        by_cases ho2 : o = ref.object
        · subst ho2
          rw [mfind_merase_self _ _ h2] at hfind
          cases hfind
        · rw [mfind_merase_ne _ _ _ (fun he => ho2 he.symm)] at hfind
          obtain ⟨r, hr, hro⟩ := h3 o n hfind
          have hn : n ≠ name := by
            intro he
            subst he
            rw [href] at hr
            cases hr
            exact ho2 hro.symm
          refine ⟨r, ?_, hro⟩
          rw [mfind_minsert_ne _ _ _ _ (fun he => hn he.symm),
            mfind_merase_ne _ _ _ (fun he => hn he.symm)]
          exact hr

theorem TableInv_setDeleteFunction (s : InstanceTable) (type func : Nat) (h : TableInv s) :
    TableInv (s.SetDeleteFunction type func) := h

theorem TableInv_counter (s : InstanceTable) (k : Nat) (h : TableInv s) :
    TableInv { s with m_TempNameNumber := k } := h

theorem TableInv_createTemporary (s : InstanceTable) (object type : Nat) (h : TableInv s) :
    TableInv (s.CreateTemporary object type).1 :=
  TableInv_setObject _ _ _ _ (TableInv_counter s _ h)

theorem TableInv_deleteIfTemporary (s : InstanceTable) (name : String) (h : TableInv s) :
    TableInv (s.DeleteIfTemporary name).1 := by
  unfold InstanceTable.DeleteIfTemporary
  by_cases hex : s.Exists name
  · rw [hex]
    by_cases ht : name.take 6 = "__temp"
    · simp only [ht, if_true]
      exact TableInv_deleteObject s name h
    · simp only [ht, if_false]
      exact h
  · rw [Bool.not_eq_true] at hex
    rw [hex]
    exact h

theorem TableInv_deleteCallBack (s : InstanceTable) (object : Nat) (h : TableInv s) :
    TableInv (s.DeleteCallBack object).1 := by
  unfold InstanceTable.DeleteCallBack
  by_cases hm : mcount object s.m_AddressToNameMap > 0
  · simp only [hm, if_true]
    exact TableInv_deleteObject s _ h
  · simp only [hm, if_false]
    exact h

/-- Registry states reachable from the freshly constructed table by any
sequence of registry operations. -/
inductive Reachable : InstanceTable → Prop where
  | init : Reachable initialTable
  | setDeleteFunction {s : InstanceTable} (type func : Nat) :
      Reachable s → Reachable (s.SetDeleteFunction type func)
  | setObject {s : InstanceTable} (name : String) (object type : Nat) :
      Reachable s → Reachable (s.SetObject name object type).1
  | deleteObject {s : InstanceTable} (name : String) :
      Reachable s → Reachable (s.DeleteObject name).1
  | createTemporary {s : InstanceTable} (object type : Nat) :
      Reachable s → Reachable (s.CreateTemporary object type).1
  | deleteIfTemporary {s : InstanceTable} (name : String) :
      Reachable s → Reachable (s.DeleteIfTemporary name).1
  | deleteCallBack {s : InstanceTable} (object : Nat) :
      Reachable s → Reachable (s.DeleteCallBack object).1

theorem TableInv_of_reachable (s : InstanceTable) (h : Reachable s) : TableInv s := by
  induction h with
  | init => exact ⟨List.nodup_nil, List.nodup_nil, fun o n hf => by cases hf⟩
  | setDeleteFunction type func _ ih => exact TableInv_setDeleteFunction _ type func ih
  | setObject name object type _ ih => exact TableInv_setObject _ name object type ih
  | deleteObject name _ ih => exact TableInv_deleteObject _ name ih
  | createTemporary object type _ ih => exact TableInv_createTemporary _ object type ih
  | deleteIfTemporary name _ ih => exact TableInv_deleteIfTemporary _ name ih
  | deleteCallBack object _ ih => exact TableInv_deleteCallBack _ object ih

theorem GetEntry_of_mfind (s : InstanceTable) (name : String) (r : Reference)
    (h : mfind name s.m_InstanceMap = some r) : s.GetEntry name = .ok r := by
  unfold InstanceTable.GetEntry
  rw [exists_eq_true_of_mfind s name r h, h]
  rfl

theorem DeleteObject_cases (s : InstanceTable) (name : String) :
    (s.Exists name = false ∧
      s.DeleteObject name = (s, [], some (.undefinedInstanceName name))) ∨
    (∃ ref : Reference, mfind name s.m_InstanceMap = some ref ∧
      mfind ref.type s.m_DeleteFunctionMap = none ∧
      s.DeleteObject name = (s, [], some (.undefinedObjectType ref.type))) ∨
    (∃ (ref : Reference) (func : Nat), mfind name s.m_InstanceMap = some ref ∧
      mfind ref.type s.m_DeleteFunctionMap = some func ∧
      s.DeleteObject name =
        ({ s with
            m_AddressToNameMap := merase ref.object s.m_AddressToNameMap
            m_InstanceMap := merase name s.m_InstanceMap },
         [.deleterCall func ref.object, .removeCommand name], none)) := by
  cases hex : s.Exists name with
  | false => exact Or.inl ⟨rfl, DeleteObject_of_not_exists s name hex⟩
  | true =>
    obtain ⟨ref, href⟩ :=
      Option.isSome_iff_exists.mp (mfind_isSome_of_exists s name hex)
    cases hdel : mfind ref.type s.m_DeleteFunctionMap with
    | none =>
      exact Or.inr (Or.inl ⟨ref, href, hdel,
        DeleteObject_of_no_deleter s name ref href hdel⟩)
    | some func =>
      exact Or.inr (Or.inr ⟨ref, func, href, hdel,
        DeleteObject_of_deleter s name ref func href hdel⟩)

theorem SetObject_cases (s : InstanceTable) (name : String) (object type : Nat) :
    (s.Exists name = false ∧
      s.SetObject name object type =
        ({ s with
            m_InstanceMap := minsert name ⟨object, type⟩ s.m_InstanceMap
            m_AddressToNameMap := minsert object name s.m_AddressToNameMap },
         [], none)) ∨
    (∃ ref : Reference, mfind name s.m_InstanceMap = some ref ∧
      mfind ref.type s.m_DeleteFunctionMap = none ∧
      s.SetObject name object type = (s, [], some (.undefinedObjectType ref.type))) ∨
    (∃ (ref : Reference) (func : Nat), mfind name s.m_InstanceMap = some ref ∧
      mfind ref.type s.m_DeleteFunctionMap = some func ∧
      s.SetObject name object type =
        ({ s with
            m_InstanceMap := minsert name ⟨object, type⟩ (merase name s.m_InstanceMap)
            m_AddressToNameMap :=
              minsert object name (merase ref.object s.m_AddressToNameMap) },
         [.deleterCall func ref.object, .removeCommand name], none)) := by
  cases hex : s.Exists name with
  | false => exact Or.inl ⟨rfl, SetObject_of_not_exists s name object type hex⟩
  | true =>
    obtain ⟨ref, href⟩ :=
      Option.isSome_iff_exists.mp (mfind_isSome_of_exists s name hex)
    cases hdel : mfind ref.type s.m_DeleteFunctionMap with
    | none =>
      exact Or.inr (Or.inl ⟨ref, href, hdel,
        SetObject_of_no_deleter s name object type ref href hdel⟩)
    | some func =>
      exact Or.inr (Or.inr ⟨ref, func, href, hdel,
        SetObject_of_deleter s name object type ref func href hdel⟩)

theorem SetObject_success (s : InstanceTable) (name : String) (object type : Nat)
    (h : (s.SetObject name object type).2.2 = none) :
    mfind name (s.SetObject name object type).1.m_InstanceMap = some ⟨object, type⟩ ∧
    (∀ n', n' ≠ name →
      mfind n' (s.SetObject name object type).1.m_InstanceMap =
        mfind n' s.m_InstanceMap) ∧
    (s.SetObject name object type).1.m_TempNameNumber = s.m_TempNameNumber := by
  rcases SetObject_cases s name object type with
    ⟨_, hr⟩ | ⟨ref, _, _, hr⟩ | ⟨ref, func, _, _, hr⟩
  · rw [hr]
    exact ⟨mfind_minsert_self _ _ _,
      fun n' hn => mfind_minsert_ne _ _ _ _ (fun he => hn he.symm), rfl⟩
  · rw [hr] at h
    cases h
  · rw [hr]
    refine ⟨mfind_minsert_self _ _ _, fun n' hn => ?_, rfl⟩
    rw [mfind_minsert_ne _ _ _ _ (fun he => hn he.symm),
      mfind_merase_ne _ _ _ (fun he => hn he.symm)]

/-- C1: the specification requires `NotifyExternalDestruction`
(`DeleteCallBack`) on an address owned by a bound name to prune only the
bookkeeping and the host command, never invoking the registered deleter
again.  The code forwards to `DeleteObject`, which does invoke the
registered delete function on the already-destroyed object: at a registry
holding instance `"a"` at address 1 of type 5 with deleter 7, the
callback's event trace contains the deleter invocation.  The
unowned-address half of the claim does hold (last conjunct: address 2 is
a no-op with no error and no state change). -/
theorem C1_deleteCallBack_runs_deleter :
    (InstanceTable.DeleteCallBack ⟨[("a", ⟨1, 5⟩)], [(1, "a")], [(5, 7)], 0⟩ 1 =
      (⟨[], [], [(5, 7)], 0⟩, [.deleterCall 7 1, .removeCommand "a"], none)) ∧
    Event.deleterCall 7 1 ∈
      (InstanceTable.DeleteCallBack ⟨[("a", ⟨1, 5⟩)], [(1, "a")], [(5, 7)], 0⟩ 1).2.1 ∧
    InstanceTable.DeleteCallBack ⟨[("a", ⟨1, 5⟩)], [(1, "a")], [(5, 7)], 0⟩ 2 =
      (⟨[("a", ⟨1, 5⟩)], [(1, "a")], [(5, 7)], 0⟩, [], none) := by
  refine ⟨?_, ?_, ?_⟩ <;> decide

/-- C3: `SetObject` on a name whose current occupant's type has no
registered deleter fails by propagating the `UndefinedObjectType`
exception of the implicit `DeleteObject`; no events are emitted, the new
binding is not installed, and both maps are exactly as before the call
(the prior binding is untouched). -/
theorem C3_rebind_propagates_destroy_failure (s : InstanceTable) (name : String)
    (object type : Nat) (ref : Reference)
    (href : mfind name s.m_InstanceMap = some ref)
    (hdel : mfind ref.type s.m_DeleteFunctionMap = none) :
    s.SetObject name object type = (s, [], some (.undefinedObjectType ref.type)) ∧
    mfind name (s.SetObject name object type).1.m_InstanceMap = some ref ∧
    (s.SetObject name object type).1 = s := by
  have h := SetObject_of_no_deleter s name object type ref href hdel
  refine ⟨h, ?_, by rw [h]⟩
  rw [h]
  exact href

theorem C3_rebind_propagates_destroy_failure_witness :
    InstanceTable.SetObject ⟨[("a", ⟨1, 9⟩)], [(1, "a")], [], 0⟩ "a" 2 9 =
      (⟨[("a", ⟨1, 9⟩)], [(1, "a")], [], 0⟩, [], some (.undefinedObjectType 9)) :=
  (C3_rebind_propagates_destroy_failure ⟨[("a", ⟨1, 9⟩)], [(1, "a")], [], 0⟩ "a"
    2 9 ⟨1, 9⟩ (by decide) (by decide)).1

/-- C5: `DeleteObject` checks its errors in order and mutates nothing
before a check passes: on an unbound name it throws
`UndefinedInstanceName` with the state returned untouched; on a bound
name whose type has no registered deleter it throws
`UndefinedObjectType` with the state untouched, so the name still
exists afterwards and the reverse map still resolves the object's
address as before. -/
theorem C5_destroy_error_checks (s : InstanceTable) (n1 n2 : String) (ref : Reference)
    (h1 : s.Exists n1 = false)
    (h2 : mfind n2 s.m_InstanceMap = some ref)
    (h3 : mfind ref.type s.m_DeleteFunctionMap = none) :
    s.DeleteObject n1 = (s, [], some (.undefinedInstanceName n1)) ∧
    s.DeleteObject n2 = (s, [], some (.undefinedObjectType ref.type)) ∧
    (s.DeleteObject n2).1.Exists n2 = true ∧
    (mfind ref.object s.m_AddressToNameMap = some n2 →
      mfind ref.object (s.DeleteObject n2).1.m_AddressToNameMap = some n2) := by
  have hd := DeleteObject_of_no_deleter s n2 ref h2 h3
  refine ⟨DeleteObject_of_not_exists s n1 h1, hd, ?_, ?_⟩
  · rw [hd]
    exact exists_eq_true_of_mfind s n2 ref h2
  · intro hr
    rw [hd]
    exact hr

theorem C5_destroy_error_checks_witness :
    InstanceTable.DeleteObject ⟨[("a", ⟨1, 9⟩)], [(1, "a")], [], 0⟩ "z" =
      (⟨[("a", ⟨1, 9⟩)], [(1, "a")], [], 0⟩, [], some (.undefinedInstanceName "z")) :=
  (C5_destroy_error_checks ⟨[("a", ⟨1, 9⟩)], [(1, "a")], [], 0⟩ "z" "a" ⟨1, 9⟩
    (by decide) (by decide) (by decide)).1

/-- C6: `SetObject` on a name already bound to `r1`, whose type has a
registered deleter, emits exactly one deleter invocation on the prior
object (followed by the host-command removal) within the rebind, throws
nothing, and afterwards `GetEntry` on the name returns exactly the new
(object, type) pair. -/
theorem C6_rebind_deleter_once (s : InstanceTable) (name : String)
    (p2 t2 : Nat) (r1 : Reference) (func : Nat)
    (href : mfind name s.m_InstanceMap = some r1)
    (hdel : mfind r1.type s.m_DeleteFunctionMap = some func) :
    (s.SetObject name p2 t2).2.1 =
      [.deleterCall func r1.object, .removeCommand name] ∧
    (s.SetObject name p2 t2).2.2 = none ∧
    (s.SetObject name p2 t2).1.GetEntry name = .ok ⟨p2, t2⟩ := by
  have h := SetObject_of_deleter s name p2 t2 r1 func href hdel
  rw [h]
  exact ⟨rfl, rfl, GetEntry_of_mfind _ name ⟨p2, t2⟩ (mfind_minsert_self _ _ _)⟩

theorem C6_rebind_deleter_once_witness :
    (InstanceTable.SetObject ⟨[("a", ⟨1, 5⟩)], [(1, "a")], [(5, 7)], 0⟩ "a" 2 5).2.1 =
      [.deleterCall 7 1, .removeCommand "a"] :=
  (C6_rebind_deleter_once ⟨[("a", ⟨1, 5⟩)], [(1, "a")], [(5, 7)], 0⟩ "a" 2 5
    ⟨1, 5⟩ 7 (by decide) (by decide)).1

/-- C7: `DeleteIfTemporary` throws `UndefinedInstanceName` on every
unbound name; on a bound name whose first six characters are `"__temp"`
it behaves exactly like `DeleteObject`; on a bound name without that
beginning it is a no-op returning the state unchanged with no events and
no exception. -/
theorem C7_deleteIfTemporary_cases (s : InstanceTable) (n1 n2 n3 : String)
    (h1 : s.Exists n1 = false)
    (h2 : s.Exists n2 = true) (h2p : n2.take 6 = "__temp")
    (h3 : s.Exists n3 = true) (h3p : n3.take 6 ≠ "__temp") :
    s.DeleteIfTemporary n1 = (s, [], some (.undefinedInstanceName n1)) ∧
    s.DeleteIfTemporary n2 = s.DeleteObject n2 ∧
    s.DeleteIfTemporary n3 = (s, [], none) := by
  unfold InstanceTable.DeleteIfTemporary
  refine ⟨?_, ?_, ?_⟩
  · rw [h1]
    rfl
  · rw [h2]
    simp [h2p]
  · rw [h3]
    simp [h3p]

theorem C7_deleteIfTemporary_cases_witness :
    InstanceTable.DeleteIfTemporary
        ⟨[("__temp0", ⟨1, 5⟩), ("b", ⟨2, 5⟩)], [(1, "__temp0"), (2, "b")], [(5, 7)], 1⟩
        "b" =
      (⟨[("__temp0", ⟨1, 5⟩), ("b", ⟨2, 5⟩)], [(1, "__temp0"), (2, "b")], [(5, 7)], 1⟩,
       [], none) :=
  (C7_deleteIfTemporary_cases
    ⟨[("__temp0", ⟨1, 5⟩), ("b", ⟨2, 5⟩)], [(1, "__temp0"), (2, "b")], [(5, 7)], 1⟩
    "z" "__temp0" "b" (by decide) (by decide) (by decide) (by decide) (by decide)).2.2

/-- C9: for a bound name, `GetEntry`, `GetObject` and `GetType` return
exactly the stored reference, object address and type; these lookups are
pure (the registry state is not modified, so it continues to track the
instance).  For an unbound name all three throw
`UndefinedInstanceName`. -/
theorem C9_lookup_returns_binding (s : InstanceTable) (n1 n2 : String) (r : Reference)
    (h : mfind n1 s.m_InstanceMap = some r)
    (h2 : s.Exists n2 = false) :
    s.GetEntry n1 = .ok r ∧ s.GetObject n1 = .ok r.object ∧
    s.GetType n1 = .ok r.type ∧
    s.GetEntry n2 = .error (.undefinedInstanceName n2) ∧
    s.GetObject n2 = .error (.undefinedInstanceName n2) ∧
    s.GetType n2 = .error (.undefinedInstanceName n2) := by
  have hex := exists_eq_true_of_mfind s n1 r h
  refine ⟨GetEntry_of_mfind s n1 r h, ?_, ?_, ?_, ?_, ?_⟩
  · unfold InstanceTable.GetObject
    rw [hex, h]
    rfl
  · unfold InstanceTable.GetType
    rw [hex, h]
    rfl
  · unfold InstanceTable.GetEntry
    rw [h2]
    rfl
  · unfold InstanceTable.GetObject
    rw [h2]
    rfl
  · unfold InstanceTable.GetType
    rw [h2]
    rfl

theorem C9_lookup_returns_binding_witness :
    InstanceTable.GetEntry ⟨[("a", ⟨2, 5⟩)], [(2, "a")], [], 0⟩ "a" = .ok ⟨2, 5⟩ :=
  (C9_lookup_returns_binding ⟨[("a", ⟨2, 5⟩)], [(2, "a")], [], 0⟩ "a" "z" ⟨2, 5⟩
    (by decide) (by decide)).1

/-- C4: a successful `DeleteObject` on a bound name with a registered
deleter performs its steps in the source order: the intermediate state
visible to the deleter (`DeleteObjectMid`) has the reverse-map entry for
the object's address already erased while the instance map still holds
the name; the call returns that state with the instance-map entry also
erased, with the trace showing the deleter invocation followed by the
host-command removal; a reentrant `DeleteCallBack` on the address in the
deleter-visible state is a no-op; afterwards the name no longer exists
and reverse lookup of the address finds nothing. -/
theorem C4_destroy_step_order (s : InstanceTable) (name : String)
    (ref : Reference) (func : Nat)
    (href : mfind name s.m_InstanceMap = some ref)
    (hdel : mfind ref.type s.m_DeleteFunctionMap = some func)
    (hnd1 : (mkeys s.m_InstanceMap).Nodup)
    (hnd2 : (mkeys s.m_AddressToNameMap).Nodup) :
    (s.DeleteObjectMid name).m_AddressToNameMap =
      merase ref.object s.m_AddressToNameMap ∧
    (s.DeleteObjectMid name).m_InstanceMap = s.m_InstanceMap ∧
    mfind ref.object (s.DeleteObjectMid name).m_AddressToNameMap = none ∧
    s.DeleteObject name =
      ({ s.DeleteObjectMid name with
          m_InstanceMap := merase name (s.DeleteObjectMid name).m_InstanceMap },
       [.deleterCall func ref.object, .removeCommand name], none) ∧
    (s.DeleteObjectMid name).DeleteCallBack ref.object =
      (s.DeleteObjectMid name, [], none) ∧
    (s.DeleteObject name).1.Exists name = false ∧
    mfind ref.object (s.DeleteObject name).1.m_AddressToNameMap = none := by
  have hmid : s.DeleteObjectMid name =
      { s with m_AddressToNameMap := merase ref.object s.m_AddressToNameMap } := by
    unfold InstanceTable.DeleteObjectMid
    rw [href]
    rfl
  have hdo := DeleteObject_of_deleter s name ref func href hdel
  have hrevnone : mfind ref.object (merase ref.object s.m_AddressToNameMap) = none :=
    mfind_merase_self _ _ hnd2
  refine ⟨by rw [hmid], by rw [hmid], by rw [hmid]; exact hrevnone, ?_, ?_, ?_, ?_⟩
  · rw [hdo, hmid]
  · rw [hmid]
    unfold InstanceTable.DeleteCallBack
    simp [mcount, hrevnone]
  · rw [hdo, exists_eq_isSome]
    show (mfind name (merase name s.m_InstanceMap)).isSome = false
    rw [mfind_merase_self _ _ hnd1]
    rfl
  · rw [hdo]
    exact hrevnone

theorem C4_destroy_step_order_witness :
    (InstanceTable.DeleteObjectMid
        ⟨[("a", ⟨1, 5⟩)], [(1, "a")], [(5, 7)], 0⟩ "a").DeleteCallBack 1 =
      (InstanceTable.DeleteObjectMid ⟨[("a", ⟨1, 5⟩)], [(1, "a")], [(5, 7)], 0⟩ "a",
       [], none) :=
  (C4_destroy_step_order ⟨[("a", ⟨1, 5⟩)], [(1, "a")], [(5, 7)], 0⟩ "a" ⟨1, 5⟩ 7
    (by decide) (by decide) (by decide) (by decide)).2.2.2.2.1

/-- C2 (counterexample to the claim as stated): the state reached from
the fresh table by `SetObject "a" 1 5` then `SetObject "b" 1 5` is
reachable, its forward map binds `"a"` to address 1, but the reverse map
does not map address 1 to `"a"` (it maps it to `"b"`), refuting the
claimed forward-to-reverse direction of the iff. -/
theorem C2_forward_without_reverse_counterexample :
    Reachable ((initialTable.SetObject "a" 1 5).1.SetObject "b" 1 5).1 ∧
    mfind "a" (((initialTable.SetObject "a" 1 5).1.SetObject "b" 1 5).1).m_InstanceMap =
      some ⟨1, 5⟩ ∧
    mfind 1 (((initialTable.SetObject "a" 1 5).1.SetObject "b" 1 5).1).m_AddressToNameMap =
      some "b" ∧
    mfind 1 (((initialTable.SetObject "a" 1 5).1.SetObject "b" 1 5).1).m_AddressToNameMap ≠
      some "a" := by
  refine ⟨Reachable.setObject "b" 1 5 (Reachable.setObject "a" 1 5 Reachable.init),
    ?_, ?_, ?_⟩ <;> decide

/-- C2 (amended): in every reachable registry state, an address maps to
a name in the reverse map only if the forward map binds that name to
exactly that address, and each address is the reverse-lookup key for at
most one live name.  (The converse — every forward binding has a
matching reverse entry — fails when one address is bound under two
names, as the counterexample shows.) -/
theorem C2_reverse_entries_backed (s : InstanceTable) (h : Reachable s) :
    (∀ o n, mfind o s.m_AddressToNameMap = some n →
      ∃ r : Reference, mfind n s.m_InstanceMap = some r ∧ r.object = o) ∧
    (∀ o n1 n2, (o, n1) ∈ s.m_AddressToNameMap → (o, n2) ∈ s.m_AddressToNameMap →
      n1 = n2) := by
  obtain ⟨h1, h2, h3⟩ := TableInv_of_reachable s h
  refine ⟨h3, ?_⟩
  intro o n1 n2 hm1 hm2
  have e1 := mfind_of_mem_nodup o n1 _ h2 hm1
  have e2 := mfind_of_mem_nodup o n2 _ h2 hm2
  rw [e1] at e2
  exact Option.some.inj e2

theorem C2_reverse_entries_backed_witness :
    ∃ r : Reference,
      mfind "b" (((initialTable.SetObject "a" 1 5).1.SetObject "b" 1 5).1).m_InstanceMap =
        some r ∧ r.object = 1 :=
  (C2_reverse_entries_backed ((initialTable.SetObject "a" 1 5).1.SetObject "b" 1 5).1
      (Reachable.setObject "b" 1 5 (Reachable.setObject "a" 1 5 Reachable.init))).1
    1 "b" (by decide)

/-- C10: for every counter value representable in 32 unsigned bits, the
minted temporary name is `"__temp"` (6 characters) followed by at most 8
hexadecimal digits, so its length is at most 14 and, with the
terminating NUL, `sprintf` writes at most 15 bytes into the 15-byte
buffer. -/
theorem C10_tempName_fits_buffer (n : Nat) (h : n < 4294967296) :
    ("__temp" ++ toHexString n).length ≤ 14 ∧
    ("__temp" ++ toHexString n).length + 1 ≤ 15 := by
  have hpow : (16 : Nat) ^ 8 = 4294967296 := by norm_num
  have h8 : (hexList (n + 1) n).length ≤ 8 :=
    hexList_length_le (n + 1) n 8 (by norm_num) (by rw [hpow]; exact h)
  have h6 : ("__temp" : String).length = 6 := rfl
  have hlen : ("__temp" ++ toHexString n).length = 6 + (hexList (n + 1) n).length := by
    rw [String.length_append, h6]
    unfold toHexString
    rw [String.length_mk]
  constructor <;> omega

theorem C10_tempName_fits_buffer_witness :
    ("__temp" ++ toHexString 4294967295).length ≤ 14 :=
  (C10_tempName_fits_buffer 4294967295 (by norm_num)).1

/-- C8: two successive `CreateTemporary` calls that both succeed mint
`"__temp"` followed by the hexadecimal rendering of the counter value,
post-incrementing the counter each time; the two names are distinct, and
afterwards both names resolve via `GetEntry` to their respective
(object, type) pairs. -/
theorem C8_createTemporary_distinct (s : InstanceTable) (o1 t1 o2 t2 : Nat)
    (h1 : (s.CreateTemporary o1 t1).2.2.2 = none)
    (h2 : ((s.CreateTemporary o1 t1).1.CreateTemporary o2 t2).2.2.2 = none) :
    (s.CreateTemporary o1 t1).2.1 = "__temp" ++ toHexString s.m_TempNameNumber ∧
    (s.CreateTemporary o1 t1).1.m_TempNameNumber = s.m_TempNameNumber + 1 ∧
    ((s.CreateTemporary o1 t1).1.CreateTemporary o2 t2).2.1 =
      "__temp" ++ toHexString (s.m_TempNameNumber + 1) ∧
    (s.CreateTemporary o1 t1).2.1 ≠
      ((s.CreateTemporary o1 t1).1.CreateTemporary o2 t2).2.1 ∧
    ((s.CreateTemporary o1 t1).1.CreateTemporary o2 t2).1.GetEntry
      ((s.CreateTemporary o1 t1).2.1) = .ok ⟨o1, t1⟩ ∧
    ((s.CreateTemporary o1 t1).1.CreateTemporary o2 t2).1.GetEntry
      (((s.CreateTemporary o1 t1).1.CreateTemporary o2 t2).2.1) = .ok ⟨o2, t2⟩ := by
  have h1' : (({ s with m_TempNameNumber := s.m_TempNameNumber + 1 } :
      InstanceTable).SetObject ("__temp" ++ toHexString s.m_TempNameNumber)
      o1 t1).2.2 = none := h1
  obtain ⟨f1, g1, c1⟩ := SetObject_success _ _ o1 t1 h1'
  have hT : (s.CreateTemporary o1 t1).1.m_TempNameNumber = s.m_TempNameNumber + 1 := c1
  have h2' : (({ (s.CreateTemporary o1 t1).1 with
      m_TempNameNumber := (s.CreateTemporary o1 t1).1.m_TempNameNumber + 1 } :
      InstanceTable).SetObject
      ("__temp" ++ toHexString (s.CreateTemporary o1 t1).1.m_TempNameNumber)
      o2 t2).2.2 = none := h2
  obtain ⟨f2, g2, c2⟩ := SetObject_success _ _ o2 t2 h2'
  have hn2 : ((s.CreateTemporary o1 t1).1.CreateTemporary o2 t2).2.1 =
      "__temp" ++ toHexString (s.m_TempNameNumber + 1) := by
    show "__temp" ++ toHexString (s.CreateTemporary o1 t1).1.m_TempNameNumber = _
    rw [hT]
  have hneq : ("__temp" ++ toHexString s.m_TempNameNumber) ≠
      "__temp" ++ toHexString (s.CreateTemporary o1 t1).1.m_TempNameNumber := by
    rw [hT]
    intro he
    have hinj := tempName_injective _ _ he
    omega
  have hm1 : mfind ("__temp" ++ toHexString s.m_TempNameNumber)
      ((s.CreateTemporary o1 t1).1.CreateTemporary o2 t2).1.m_InstanceMap =
      some ⟨o1, t1⟩ := by
    have hg := g2 ("__temp" ++ toHexString s.m_TempNameNumber) hneq
    exact hg.trans f1
  exact ⟨rfl, hT, hn2, hneq, GetEntry_of_mfind _ _ _ hm1, GetEntry_of_mfind _ _ _ f2⟩

theorem C8_createTemporary_distinct_witness :
    (initialTable.CreateTemporary 1 5).2.1 ≠
      ((initialTable.CreateTemporary 1 5).1.CreateTemporary 2 5).2.1 :=
  (C8_createTemporary_distinct initialTable 1 5 2 5 (by decide) (by decide)).2.2.2.1
